import Mathlib

/-!
Shallow embedding of the rs-fat12-reader library (src/lib.rs): FAT12 boot
sector offset arithmetic, the packed 12-bit FAT entry codec, root directory
lookup, and the cluster-chain content reader, together with proofs of the
specified properties.

Machine integers are modelled as `Nat`; where the source performs `u16`
arithmetic (which wraps on overflow in release builds) the model reduces
modulo 2^16 = 65536.  `usize` arithmetic on the bounded quantities involved
cannot overflow 2^64 and is modelled exactly.  Fallible reads return
`Except`; the unchecked (`unwrap_unchecked`) FAT buffer accesses are
modelled with `Option`, `none` standing for the undefined out-of-bounds
case.
-/

namespace Fat12

/-- Boot sector header (`struct BootSector` in src/lib.rs, repr(C, packed)).
`u8`/`u16`/`u32` fields are modelled as `Nat`, byte-array fields as lists. -/
structure BootSector where
  jump_instruction : List Nat
  oem_id : List Nat
  bytes_per_sector : Nat
  sectors_per_cluster : Nat
  reserved_sectors : Nat
  fat_count : Nat
  root_entries : Nat
  sector_count : Nat
  media_descriptor : Nat
  sectors_per_fat : Nat
  sectors_per_cylinder : Nat
  heads_count : Nat
  hidden_sectors_count : Nat
  large_sector_count : Nat
  drive_number : Nat
  reserved : Nat
  volume_id : Nat
  volume_label : List Nat
  system_id : List Nat
deriving DecidableEq

/-- Source `BootSector::get_fat_start`: `reserved_sectors * bytes_per_sector` in
`u16` arithmetic (wrapping multiplication). -/
def BootSector.get_fat_start (b : BootSector) : Nat :=
  b.reserved_sectors * b.bytes_per_sector % 65536

/-- Source `BootSector::get_fat_size`: `sectors_per_fat * bytes_per_sector` in
`u16` arithmetic. -/
def BootSector.get_fat_size (b : BootSector) : Nat :=
  b.sectors_per_fat * b.bytes_per_sector % 65536

/-- Source `BootSector::get_root_dir_start`:
`get_fat_start() + get_fat_size() * fat_count` in `u16` arithmetic. -/
def BootSector.get_root_dir_start (b : BootSector) : Nat :=
  (b.get_fat_start + b.get_fat_size * b.fat_count % 65536) % 65536

/-- Source `BootSector::get_root_dir_size`:
`root_entries as usize * size_of::<DirectoryEntry>()`; the packed
`DirectoryEntry` is 32 bytes and the `usize` product cannot overflow. -/
def BootSector.get_root_dir_size (b : BootSector) : Nat :=
  b.root_entries * 32

/-- Source `BootSector::get_cluster_region_start`: root dir start plus size,
in `usize` arithmetic (exact). -/
def BootSector.get_cluster_region_start (b : BootSector) : Nat :=
  b.get_root_dir_start + b.get_root_dir_size

/-- Source `BootSector::get_cluster_size`:
`sectors_per_cluster as usize * bytes_per_sector as usize` (exact). -/
def BootSector.get_cluster_size (b : BootSector) : Nat :=
  b.sectors_per_cluster * b.bytes_per_sector

/-- Source `BootSector::get_cluster_start`: the subtraction `cluster - 2` is a
wrapping `u16` subtraction (the argument is a `u16`, hence `< 65536`);
the surrounding additions and multiplication are exact `usize` ops. -/
def BootSector.get_cluster_start (b : BootSector) (cluster : Nat) : Nat :=
  b.get_cluster_region_start + b.get_cluster_size * ((cluster + 65534) % 65536)

/-- Source `struct Fat`: the raw FAT region bytes. -/
structure Fat where
  entries : List Nat
deriving DecidableEq

/-- Source `Fat::get_entry`, which performs two unchecked buffer reads
(`get(i).unwrap_unchecked()`); `none` models the undefined out-of-bounds
case.  Shifts/masks follow the source: `c = ((cluster*3) % 2) * 4`,
`lsb = entries[i] & (0xFF << c)` (a `u8` shift, truncated mod 256),
`msb = entries[i+1] & (0xFF >> (4-c))`, `word = msb*256 + lsb`,
result `(word >> c) & 0x0FFF`. -/
def Fat.get_entry? (f : Fat) (cluster : Nat) : Option Nat :=
  let i : Nat := cluster * 3 / 2
  let c : Nat := cluster * 3 % 2 * 4
  match f.entries.get? i, f.entries.get? (i + 1) with
  | some b0, some b1 =>
      let lsb : Nat := b0 &&& ((0xFF <<< c) % 256)
      let msb : Nat := b1 &&& (0xFF >>> (4 - c))
      let word : Nat := msb * 256 + lsb
      some ((word >>> c) &&& 0x0FFF)
  | _, _ => none

/-- Source `struct DirectoryEntry` (repr(C, packed), 32 bytes). -/
structure DirectoryEntry where
  name : List Nat
  attributes : Nat
  reserved : Nat
  creation_time_tenths : Nat
  creation_time : Nat
  creation_date : Nat
  last_access_date : Nat
  upper_first_cluster : Nat
  last_change_time : Nat
  last_change_date : Nat
  lower_first_cluster : Nat
  file_size : Nat
deriving DecidableEq

/-- Source `struct Directory`: the decoded root directory entries. -/
structure Directory where
  entries : List DirectoryEntry
deriving DecidableEq

/-- Source `Directory::get_entry`: scan in order; `entry.name.get(0)?` propagates
`none` for an impossible empty name, a first byte 0x00 breaks out of the
loop (returning `None`), and a query whose bytes equal the full fixed-width
name returns that entry. -/
def Directory.get_entry (d : Directory) (name : List Nat) : Option DirectoryEntry :=
  go d.entries name
where
  /-- The `for i in 0..self.entries.len()` loop of `Directory::get_entry`. -/
  go : List DirectoryEntry → List Nat → Option DirectoryEntry
  | [], _ => none
  | e :: rest, q =>
    match e.name.head? with
    | none => none
    | some b =>
      if b = 0x00 then none
      else if q = e.name then some e
      else go rest q

/-- Error type for fallible reads; `read_exact` fails with an
unexpected-end-of-file error carrying the requested and available counts. -/
inductive IoError where
  | truncatedRead (requested available : Nat)
deriving DecidableEq

/-- A seekable byte source: the raw disk image plus the cursor position
(models `File` restricted to `seek`/`read_exact`). -/
structure DiskState where
  data : List Nat
  pos : Nat
deriving DecidableEq

/-- Source `Seek::seek(SeekFrom::Start offset)`. -/
def DiskState.seek (d : DiskState) (offset : Nat) : DiskState :=
  { d with pos := offset }

/-- Source `Read::read_exact` into a buffer of `n` bytes: succeeds returning
exactly `n` bytes from the cursor iff that many are available, else fails. -/
def read_exact (d : DiskState) (n : Nat) : Except IoError (List Nat × DiskState) :=
  if d.pos + n ≤ d.data.length then
    Except.ok ((d.data.drop d.pos).take n, { d with pos := d.pos + n })
  else
    Except.error (IoError.truncatedRead n (d.data.length - d.pos))

/-- Source `read_buffer`: allocate a zero-filled buffer of `size` bytes and fill it
with `read_exact`. -/
def read_buffer (d : DiskState) (size : Nat) : Except IoError (List Nat × DiskState) :=
  read_exact d size

/-- Little-endian integer value of `len` bytes of `buf` starting at `off`. -/
def leBytes (buf : List Nat) (off len : Nat) : Nat :=
  (List.range len).foldr (fun k acc => buf.getD (off + k) 0 + 256 * acc) 0

/-- Source `size_of::<BootSector>()` for the packed layout: 61 bytes. -/
def bootSectorByteSize : Nat := 61

/-- Reinterpretation of 61 raw bytes as a `BootSector`
(`read_struct::<BootSector>`: packed little-endian fields in declaration
order). -/
def parse_boot_sector (buf : List Nat) : BootSector :=
  { jump_instruction := (buf.drop 0).take 3
    oem_id := (buf.drop 3).take 8
    bytes_per_sector := leBytes buf 11 2
    sectors_per_cluster := buf.getD 13 0
    reserved_sectors := leBytes buf 14 2
    fat_count := buf.getD 16 0
    root_entries := leBytes buf 17 2
    sector_count := leBytes buf 19 2
    media_descriptor := buf.getD 21 0
    sectors_per_fat := leBytes buf 22 2
    sectors_per_cylinder := leBytes buf 24 2
    heads_count := leBytes buf 26 2
    hidden_sectors_count := leBytes buf 28 4
    large_sector_count := leBytes buf 32 4
    drive_number := buf.getD 36 0
    reserved := buf.getD 37 0
    volume_id := leBytes buf 38 4
    volume_label := (buf.drop 42).take 11
    system_id := (buf.drop 53).take 8 }

/-- Source `read_boot_sector`: read `size_of::<BootSector>()` bytes at the current
cursor and reinterpret them as the packed struct. -/
def read_boot_sector (d : DiskState) : Except IoError (BootSector × DiskState) :=
  match read_buffer d bootSectorByteSize with
  | Except.error e => Except.error e
  | Except.ok (buf, d') => Except.ok (parse_boot_sector buf, d')

/-- Source `read_fat`: seek to `get_fat_start()` and read `get_fat_size()` bytes. -/
def read_fat (d : DiskState) (b : BootSector) : Except IoError (Fat × DiskState) :=
  match read_buffer (d.seek b.get_fat_start) b.get_fat_size with
  | Except.error e => Except.error e
  | Except.ok (buf, d') => Except.ok ({ entries := buf }, d')

/-- Reinterpretation of one 32-byte record as a `DirectoryEntry`
(packed little-endian fields in declaration order). -/
def parse_directory_entry (buf : List Nat) : DirectoryEntry :=
  { name := (buf.drop 0).take 11
    attributes := buf.getD 11 0
    reserved := buf.getD 12 0
    creation_time_tenths := buf.getD 13 0
    creation_time := leBytes buf 14 2
    creation_date := leBytes buf 16 2
    last_access_date := leBytes buf 18 2
    upper_first_cluster := leBytes buf 20 2
    last_change_time := leBytes buf 22 2
    last_change_date := leBytes buf 24 2
    lower_first_cluster := leBytes buf 26 2
    file_size := leBytes buf 28 4 }

/-- Source `read_root_directory`: seek to `get_root_dir_start()`, read
`get_root_dir_size()` bytes, and reinterpret the buffer as `root_entries`
consecutive 32-byte records. -/
def read_root_directory (d : DiskState) (b : BootSector) :
    Except IoError (Directory × DiskState) :=
  match read_buffer (d.seek b.get_root_dir_start) b.get_root_dir_size with
  | Except.error e => Except.error e
  | Except.ok (buf, d') =>
      let es := (List.range b.root_entries).map
        (fun k => parse_directory_entry ((buf.drop (k * 32)).take 32))
      Except.ok ({ entries := es }, d')

/-- The `loop` of `read_entry_content`: read the cluster at
`get_cluster_start(current)`, append it to the accumulator, look up the next
cluster in the FAT, and stop once the decoded value is `>= 0x0FF8`.
`fuel` bounds the iteration count; the outer `none` covers both fuel
exhaustion (a chain that does not terminate within `fuel` steps) and an
out-of-bounds FAT access (undefined behaviour in the source). -/
def read_entry_content_loop (b : BootSector) (fat : Fat) :
    Nat → Nat → List Nat → DiskState → Option (Except IoError (List Nat × DiskState))
  | 0, _, _, _ => none
  | fuel + 1, current, acc, d =>
    match read_buffer (d.seek (b.get_cluster_start current)) b.get_cluster_size with
    | Except.error e => some (Except.error e)
    | Except.ok (buf, d') =>
      match fat.get_entry? current with
      | none => none
      | some next =>
        if 0x0FF8 ≤ next then some (Except.ok (acc ++ buf, d'))
        else read_entry_content_loop b fat fuel next (acc ++ buf) d'

/-- Source `read_entry_content`: start the chain walk from the entry's
`lower_first_cluster` (the `upper_first_cluster` half is never consulted). -/
def read_entry_content (d : DiskState) (entry : DirectoryEntry) (fat : Fat)
    (b : BootSector) (fuel : Nat) : Option (Except IoError (List Nat × DiskState)) :=
  read_entry_content_loop b fat fuel entry.lower_first_cluster [] d

/-- The cluster chain induced by the FAT from a start cluster: the list of
visited clusters, each visited cluster read before its successor is decoded,
traversal stopping once a decoded successor is `>= 0x0FF8`.  `none` when the
chain does not reach an end-of-chain marker within `fuel` steps or a FAT
access is out of bounds. -/
def fat_chain (fat : Fat) : Nat → Nat → Option (List Nat)
  | 0, _ => none
  | fuel + 1, current =>
    match fat.get_entry? current with
    | none => none
    | some next =>
      if 0x0FF8 ≤ next then some [current]
      else (fat_chain fat fuel next).map (fun cs => current :: cs)

/-- The bytes of one cluster as laid out on the disk image. -/
def cluster_bytes (data : List Nat) (b : BootSector) (c : Nat) : List Nat :=
  (data.drop (b.get_cluster_start c)).take b.get_cluster_size

/- ==== Concrete objects used by witnesses ================================ -/

/-- A boot sector with in-range u16 products: 512-byte sectors, 1 sector per
cluster, 1 reserved sector, 2 FATs, 9 sectors per FAT, 224 root entries. -/
def bsSmall : BootSector :=
  ⟨[], [], 512, 1, 1, 2, 224, 0, 0, 9, 0, 0, 0, 0, 0, 0, 0, [], []⟩

/-- A tiny boot sector for chain-walk examples: 2-byte sectors, 1 sector per
cluster, no reserved sectors, no FATs, no root entries (so the cluster
region starts at byte 0 and cluster 2 sits at offset 0). -/
def bsTiny : BootSector :=
  ⟨[], [], 2, 1, 0, 0, 0, 0, 0, 0, 0, 0, 0, 0, 0, 0, 0, [], []⟩

/-- A boot sector exhibiting u16 overflow: 256 reserved sectors of 256 bytes. -/
def bsOverflow : BootSector :=
  ⟨[], [], 256, 0, 256, 0, 0, 0, 0, 0, 0, 0, 0, 0, 0, 0, 0, [], []⟩

/-- A FAT whose entry 2 decodes to 0xFF8 (end of chain). -/
def fatOne : Fat := { entries := [0, 0, 0, 0xF8, 0xFF, 0] }

/-- A FAT encoding the two-cluster chain 2 → 3 → end of chain. -/
def fatTwo : Fat := { entries := [0, 0, 0, 0x03, 0x80, 0xFF] }

/-- A directory entry with first cluster 2 and zero declared file size. -/
def entryTiny : DirectoryEntry := ⟨[65], 0, 0, 0, 0, 0, 0, 7, 0, 0, 2, 0⟩

/-- Like `entryTiny` but with a different `upper_first_cluster` half. -/
def upperVariant : DirectoryEntry := ⟨[65], 0, 0, 0, 0, 0, 0, 99, 0, 0, 2, 0⟩

/- ======================================================================== -/
/- ==== Theorems =========================================================== -/

/-- C3: for every boot sector and cluster number `2 ≤ n` (a `u16`, so
`n < 65536`), `get_cluster_start n` equals
`get_cluster_region_start + get_cluster_size * (n - 2)`; in particular
`get_cluster_start 2 = get_cluster_region_start`. -/
theorem get_cluster_start_spec (b : BootSector) (n : Nat) (h2 : 2 ≤ n)
    (hlt : n < 65536) :
    b.get_cluster_start n = b.get_cluster_region_start + b.get_cluster_size * (n - 2) ∧
    b.get_cluster_start 2 = b.get_cluster_region_start := by
  unfold BootSector.get_cluster_start
  refine ⟨?_, ?_⟩
  · have hmod : (n + 65534) % 65536 = n - 2 := by omega
    rw [hmod]
  · norm_num

/-- C3 witness: the theorem applied to `bsSmall` and cluster 5. -/
theorem get_cluster_start_spec_witness :
    bsSmall.get_cluster_start 5
      = bsSmall.get_cluster_region_start + bsSmall.get_cluster_size * 3 ∧
    bsSmall.get_cluster_start 2 = bsSmall.get_cluster_region_start :=
  get_cluster_start_spec bsSmall 5 (by decide) (by decide)

/-- C4 counterexample: with `reserved_sectors = 256` and
`bytes_per_sector = 256` (both valid u16 field values) the u16 product in
`get_fat_start` wraps to 0, so the derived offsets do not equal the exact
integer formulas for all field values. -/
theorem derived_offsets_not_exact :
    ¬ (bsOverflow.get_fat_start
          = bsOverflow.reserved_sectors * bsOverflow.bytes_per_sector ∧
       bsOverflow.get_fat_size
          = bsOverflow.sectors_per_fat * bsOverflow.bytes_per_sector ∧
       bsOverflow.get_root_dir_start
          = bsOverflow.get_fat_start + bsOverflow.get_fat_size * bsOverflow.fat_count ∧
       bsOverflow.get_root_dir_size = bsOverflow.root_entries * 32) := by
  decide

/-- C4 amended: `get_root_dir_size` is computed in `usize` and equals
`root_entries * 32` exactly; the other derived offsets are computed in u16
arithmetic, equal the spec formulas reduced modulo 2^16, and equal the exact
formulas whenever those fit below 2^16. -/
theorem derived_offsets_spec (b : BootSector) :
    b.get_root_dir_size = b.root_entries * 32 ∧
    b.get_fat_start = b.reserved_sectors * b.bytes_per_sector % 65536 ∧
    b.get_fat_size = b.sectors_per_fat * b.bytes_per_sector % 65536 ∧
    (b.reserved_sectors * b.bytes_per_sector < 65536 →
      b.get_fat_start = b.reserved_sectors * b.bytes_per_sector) ∧
    (b.sectors_per_fat * b.bytes_per_sector < 65536 →
      b.get_fat_size = b.sectors_per_fat * b.bytes_per_sector) ∧
    (b.get_fat_start + b.get_fat_size * b.fat_count < 65536 →
      b.get_root_dir_start = b.get_fat_start + b.get_fat_size * b.fat_count) := by
  refine ⟨rfl, rfl, rfl, fun h => Nat.mod_eq_of_lt h, fun h => Nat.mod_eq_of_lt h, fun h => ?_⟩
  unfold BootSector.get_root_dir_start
  have h1 : b.get_fat_size * b.fat_count < 65536 := by omega
  rw [Nat.mod_eq_of_lt h1, Nat.mod_eq_of_lt h]

/-- C4 amended witness: the theorem applied to `bsSmall`, whose products all
fit in a u16 (fat start 512, fat size 4608, root dir start 9728). -/
theorem derived_offsets_spec_witness :
    bsSmall.get_root_dir_size = 224 * 32 ∧
    bsSmall.get_fat_start = 512 ∧
    bsSmall.get_fat_size = 4608 ∧
    bsSmall.get_root_dir_start = 512 + 4608 * 2 := by
  have h := derived_offsets_spec bsSmall
  exact ⟨h.1, (h.2.2.2.1 (by decide)).trans (by decide),
    (h.2.2.2.2.1 (by decide)).trans (by decide),
    (h.2.2.2.2.2 (by decide)).trans (by decide)⟩

/-- C9: the chain walk starts from the entry's `lower_first_cluster` and
never consults `upper_first_cluster`: two entries agreeing on the lower half
produce identical results on the same disk, FAT, and boot sector. -/
theorem read_entry_content_ignores_upper (d : DiskState) (b : BootSector)
    (fat : Fat) (fuel : Nat) (e1 e2 : DirectoryEntry)
    (h : e1.lower_first_cluster = e2.lower_first_cluster) :
    read_entry_content d e1 fat b fuel = read_entry_content d e2 fat b fuel := by
  unfold read_entry_content
  rw [h]

/-- C9 witness: two concrete entries differing in `upper_first_cluster`
(7 versus 99) but sharing `lower_first_cluster = 2` give the same content. -/
theorem read_entry_content_ignores_upper_witness :
    entryTiny.upper_first_cluster ≠ upperVariant.upper_first_cluster ∧
    read_entry_content ⟨[0xAB, 0xCD], 0⟩ entryTiny fatOne bsTiny 3
      = read_entry_content ⟨[0xAB, 0xCD], 0⟩ upperVariant fatOne bsTiny 3 :=
  ⟨by decide,
   read_entry_content_ignores_upper ⟨[0xAB, 0xCD], 0⟩ bsTiny fatOne 3
     entryTiny upperVariant rfl⟩

/-- The scan loop returns `none` on any list whose prefix before a
terminator entry contains no match for the query. -/
theorem get_entry_go_none_of_terminator (term : DirectoryEntry) (post : List DirectoryEntry)
    (q : List Nat) (hterm : term.name.head? = some 0x00) :
    ∀ pre : List DirectoryEntry, (∀ e ∈ pre, q ≠ e.name) →
      Directory.get_entry.go (pre ++ term :: post) q = none := by
  intro pre
  induction pre with
  | nil =>
    intro _
    simp only [List.nil_append, Directory.get_entry.go, hterm]
    rfl
  | cons e rest ih =>
    intro h
    have hq : q ≠ e.name := h e (by simp)
    have hrest : ∀ x ∈ rest, q ≠ x.name := fun x hx => h x (by simp [hx])
    simp only [List.cons_append, Directory.get_entry.go]
    cases hh : e.name.head? with
    | none => rfl
    | some b =>
      by_cases hb : b = 0x00
      · simp [hb]
      · simp only [hb, if_false, if_neg hq]
        exact ih hrest

/-- C5: `Directory::get_entry` scans entries in stored order and stops at
(and excludes) the first entry whose name begins with byte 0x00: a query
that matches no entry stored before such a terminator returns `None`, even
when a matching entry exists after the terminator. -/
theorem get_entry_stops_at_terminator (pre post : List DirectoryEntry)
    (term : DirectoryEntry) (q : List Nat)
    (hterm : term.name.head? = some 0x00)
    (hpre : ∀ e ∈ pre, q ≠ e.name) :
    Directory.get_entry ⟨pre ++ term :: post⟩ q = none :=
  get_entry_go_none_of_terminator term post q hterm pre hpre

/-- C5 witness: a directory holding entry `B`, then a terminator, then an
entry whose name equals the query; lookup of that name returns `None`. -/
theorem get_entry_stops_at_terminator_witness :
    Directory.get_entry
      ⟨[⟨[66, 32, 32, 32, 32, 32, 32, 32, 32, 32, 32], 0, 0, 0, 0, 0, 0, 0, 0, 0, 5, 0⟩,
        ⟨[0, 0, 0, 0, 0, 0, 0, 0, 0, 0, 0], 0, 0, 0, 0, 0, 0, 0, 0, 0, 0, 0⟩,
        ⟨[65, 32, 32, 32, 32, 32, 32, 32, 32, 32, 32], 0, 0, 0, 0, 0, 0, 0, 0, 0, 9, 0⟩]⟩
      [65, 32, 32, 32, 32, 32, 32, 32, 32, 32, 32] = none :=
  get_entry_stops_at_terminator
    [⟨[66, 32, 32, 32, 32, 32, 32, 32, 32, 32, 32], 0, 0, 0, 0, 0, 0, 0, 0, 0, 5, 0⟩]
    [⟨[65, 32, 32, 32, 32, 32, 32, 32, 32, 32, 32], 0, 0, 0, 0, 0, 0, 0, 0, 0, 9, 0⟩]
    ⟨[0, 0, 0, 0, 0, 0, 0, 0, 0, 0, 0], 0, 0, 0, 0, 0, 0, 0, 0, 0, 0, 0⟩
    [65, 32, 32, 32, 32, 32, 32, 32, 32, 32, 32]
    (by decide) (by decide)

/-- The scan loop only ever returns an entry whose full name equals the
query and which belongs to the scanned list. -/
theorem get_entry_go_exact (q : List Nat) (e : DirectoryEntry) :
    ∀ es : List DirectoryEntry, Directory.get_entry.go es q = some e →
      q = e.name ∧ e ∈ es := by
  intro es
  induction es with
  | nil => intro h; exact absurd h (by simp [Directory.get_entry.go])
  | cons x rest ih =>
    intro h
    simp only [Directory.get_entry.go] at h
    split at h
    · exact absurd h (by simp)
    · rename_i b heq
      by_cases hb : b = 0x00
      · rw [if_pos hb] at h; exact absurd h (by simp)
      · rw [if_neg hb] at h
        by_cases hq : q = x.name
        · rw [if_pos hq] at h
          obtain rfl : x = e := by injection h
          exact ⟨hq, by simp⟩
        · rw [if_neg hq] at h
          obtain ⟨h1, h2⟩ := ih h
          exact ⟨h1, by simp [h2]⟩

/-- The scan loop returns a matching entry whenever everything stored
before it is a non-terminator entry whose name differs from the query. -/
theorem get_entry_go_first_match (q : List Nat) (e : DirectoryEntry)
    (post : List DirectoryEntry) (hq : q = e.name)
    (hb : ∃ b, e.name.head? = some b ∧ b ≠ 0x00) :
    ∀ pre : List DirectoryEntry,
      (∀ x ∈ pre, (∃ bx, x.name.head? = some bx ∧ bx ≠ 0x00) ∧ q ≠ x.name) →
      Directory.get_entry.go (pre ++ e :: post) q = some e := by
  intro pre
  induction pre with
  | nil =>
    intro _
    obtain ⟨b, hbb, hb0⟩ := hb
    simp only [List.nil_append, Directory.get_entry.go, hbb]
    simp [hb0, hq]
  | cons x rest ih =>
    intro h
    obtain ⟨⟨bx, hbx, hbx0⟩, hxq⟩ := h x (by simp)
    have hrest := ih (fun y hy => h y (by simp [hy]))
    simp only [List.cons_append, Directory.get_entry.go, hbx]
    simp [hbx0, hxq, hrest]

/-- C6: `Directory::get_entry` matches on raw fixed-width name bytes only
and returns the first match in stored order before any terminator: any
returned entry's full name equals the query bytes exactly (so a query
without the stored trailing space padding can never match), and conversely
an entry whose name equals the query, preceded only by non-terminator
entries with different names, is the one returned. -/
theorem get_entry_exact_match (d : Directory) (q : List Nat) :
    (∀ e, d.get_entry q = some e → q = e.name ∧ e ∈ d.entries) ∧
    (∀ pre e post, d.entries = pre ++ e :: post →
      (∀ x ∈ pre, (∃ bx, x.name.head? = some bx ∧ bx ≠ 0x00) ∧ q ≠ x.name) →
      q = e.name →
      (∃ b, e.name.head? = some b ∧ b ≠ 0x00) →
      d.get_entry q = some e) := by
  constructor
  · intro e h
    exact get_entry_go_exact q e d.entries h
  · intro pre e post hsplit hpre hq hb
    show Directory.get_entry.go d.entries q = some e
    rw [hsplit]
    exact get_entry_go_first_match q e post hq hb pre hpre

/-- C6 witness: a directory holding a non-matching entry `B`, then an entry
named `A` (padded) with first cluster 9, then a second entry with the same
name and first cluster 5; looking up the padded name returns the first
match (cluster 9), and the returned entry's name equals the query. -/
theorem get_entry_exact_match_witness :
    Directory.get_entry
      ⟨[⟨[66, 32, 32, 32, 32, 32, 32, 32, 32, 32, 32], 0, 0, 0, 0, 0, 0, 0, 0, 0, 5, 0⟩,
        ⟨[65, 32, 32, 32, 32, 32, 32, 32, 32, 32, 32], 0, 0, 0, 0, 0, 0, 0, 0, 0, 9, 0⟩,
        ⟨[65, 32, 32, 32, 32, 32, 32, 32, 32, 32, 32], 0, 0, 0, 0, 0, 0, 0, 0, 0, 5, 0⟩]⟩
      [65, 32, 32, 32, 32, 32, 32, 32, 32, 32, 32]
      = some ⟨[65, 32, 32, 32, 32, 32, 32, 32, 32, 32, 32], 0, 0, 0, 0, 0, 0, 0, 0, 0, 9, 0⟩ ∧
    [65, 32, 32, 32, 32, 32, 32, 32, 32, 32, 32]
      = (⟨[65, 32, 32, 32, 32, 32, 32, 32, 32, 32, 32], 0, 0, 0, 0, 0, 0, 0, 0, 0, 9, 0⟩ :
          DirectoryEntry).name := by
  have h := get_entry_exact_match
    ⟨[⟨[66, 32, 32, 32, 32, 32, 32, 32, 32, 32, 32], 0, 0, 0, 0, 0, 0, 0, 0, 0, 5, 0⟩,
      ⟨[65, 32, 32, 32, 32, 32, 32, 32, 32, 32, 32], 0, 0, 0, 0, 0, 0, 0, 0, 0, 9, 0⟩,
      ⟨[65, 32, 32, 32, 32, 32, 32, 32, 32, 32, 32], 0, 0, 0, 0, 0, 0, 0, 0, 0, 5, 0⟩]⟩
    [65, 32, 32, 32, 32, 32, 32, 32, 32, 32, 32]
  have hc := h.2
    [⟨[66, 32, 32, 32, 32, 32, 32, 32, 32, 32, 32], 0, 0, 0, 0, 0, 0, 0, 0, 0, 5, 0⟩]
    ⟨[65, 32, 32, 32, 32, 32, 32, 32, 32, 32, 32], 0, 0, 0, 0, 0, 0, 0, 0, 0, 9, 0⟩
    [⟨[65, 32, 32, 32, 32, 32, 32, 32, 32, 32, 32], 0, 0, 0, 0, 0, 0, 0, 0, 0, 5, 0⟩]
    rfl
    (by
      intro x hx
      simp only [List.mem_singleton] at hx
      subst hx
      exact ⟨⟨66, rfl, by decide⟩, by decide⟩)
    rfl ⟨65, rfl, by decide⟩
  exact ⟨hc, (h.1 _ hc).1⟩

/-- C10: on a directory whose stored names all have the fixed width of 11
bytes, a query whose byte length is not 11 returns `None` regardless of the
directory contents. -/
theorem get_entry_wrong_length (d : Directory) (q : List Nat)
    (hwf : ∀ e ∈ d.entries, e.name.length = 11)
    (hq : q.length ≠ 11) : d.get_entry q = none := by
  by_contra h
  obtain ⟨e, he⟩ : ∃ e, d.get_entry q = some e := by
    cases hh : d.get_entry q with
    | none => exact absurd hh h
    | some e => exact ⟨e, rfl⟩
  obtain ⟨h1, h2⟩ := get_entry_go_exact q e d.entries he
  exact hq (h1 ▸ hwf e h2)

/-- C10 witness: the empty query (length 0) finds nothing in a directory
holding one 11-byte-named entry. -/
theorem get_entry_wrong_length_witness :
    Directory.get_entry
      ⟨[⟨[65, 32, 32, 32, 32, 32, 32, 32, 32, 32, 32], 0, 0, 0, 0, 0, 0, 0, 0, 0, 9, 0⟩]⟩
      [] = none :=
  get_entry_wrong_length
    ⟨[⟨[65, 32, 32, 32, 32, 32, 32, 32, 32, 32, 32], 0, 0, 0, 0, 0, 0, 0, 0, 0, 9, 0⟩]⟩
    [] (by decide) (by decide)

/-- C8: when the second byte index `cluster*3/2 + 1` is within the FAT
buffer, both unchecked accesses of `Fat::get_entry` are in bounds and the
decode succeeds (the out-of-bounds branch is unreachable). -/
theorem get_entry_accesses_in_bounds (f : Fat) (cluster : Nat)
    (h : cluster * 3 / 2 + 1 < f.entries.length) :
    (f.entries.get? (cluster * 3 / 2)).isSome ∧
    (f.entries.get? (cluster * 3 / 2 + 1)).isSome ∧
    ∃ v, f.get_entry? cluster = some v := by
  have h0 : cluster * 3 / 2 < f.entries.length := by omega
  refine ⟨by simp [List.get?_eq_getElem?, List.getElem?_eq_getElem, h0],
          by simp [List.get?_eq_getElem?, List.getElem?_eq_getElem, h],
          ?_⟩
  simp only [Fat.get_entry?]
  rw [List.get?_eq_get h0, List.get?_eq_get h]
  exact ⟨_, rfl⟩

/-- C8 witness: applying the theorem to `fatOne` (6 bytes) and cluster 2,
whose byte indices 3 and 4 are in bounds. -/
theorem get_entry_accesses_in_bounds_witness :
    (fatOne.entries.get? 3).isSome ∧
    (fatOne.entries.get? 4).isSome ∧
    ∃ v, fatOne.get_entry? 2 = some v :=
  get_entry_accesses_in_bounds fatOne 2 (by decide)

set_option maxRecDepth 10000 in
/-- Masking a byte with 0xF0 keeps its upper nibble in place. -/
theorem and_hi_nibble : ∀ x, x < 256 → x &&& 240 = x / 16 * 16 := by decide

/-- Masking with 0xFF is reduction mod 256. -/
theorem and_255 (x : Nat) : x &&& 255 = x % 256 := by
  have h := Nat.and_pow_two_sub_one_eq_mod x 8
  norm_num at h
  exact h

/-- Masking with 0x0F is reduction mod 16. -/
theorem and_15 (x : Nat) : x &&& 15 = x % 16 := by
  have h := Nat.and_pow_two_sub_one_eq_mod x 4
  norm_num at h
  exact h

/-- Masking with 0x0FFF is reduction mod 4096. -/
theorem and_4095 (x : Nat) : x &&& 4095 = x % 4096 := by
  have h := Nat.and_pow_two_sub_one_eq_mod x 12
  norm_num at h
  exact h

/-- C1: for a FAT buffer of bytes and a cluster index `n` with
`n*3/2 + 1` inside the buffer, `Fat::get_entry` decodes the packed 12-bit
entry: for even `n` the low 12 bits of the byte pair at `i = n*3/2`
(byte `i` as the low 8 bits, the low nibble of byte `i+1` as the high
4 bits), for odd `n` the upper 12 bits (the high nibble of byte `i` as the
low 4 bits, byte `i+1` as the high 8 bits); any decoded value is at most
0x0FFF, and a buffer beginning `[0x34, 0x12]` decodes entry 0 to 0x234. -/
theorem fat_get_entry_packing (f : Fat) (n : Nat)
    (hb : n * 3 / 2 + 1 < f.entries.length)
    (hw : ∀ x ∈ f.entries, x < 256) :
    (n % 2 = 0 → f.get_entry? n
        = some (f.entries.getD (n * 3 / 2) 0
            + f.entries.getD (n * 3 / 2 + 1) 0 % 16 * 256)) ∧
    (n % 2 = 1 → f.get_entry? n
        = some (f.entries.getD (n * 3 / 2) 0 / 16
            + f.entries.getD (n * 3 / 2 + 1) 0 * 16)) ∧
    (∀ v, f.get_entry? n = some v → v ≤ 0x0FFF) ∧
    (∀ rest : List Nat, Fat.get_entry? ⟨0x34 :: 0x12 :: rest⟩ 0 = some 0x234) := by
  have h0 : n * 3 / 2 < f.entries.length := by omega
  have hb0 : f.entries.getD (n * 3 / 2) 0 = f.entries.get ⟨n * 3 / 2, h0⟩ :=
    List.getD_eq_get f.entries 0 h0
  have hb1 : f.entries.getD (n * 3 / 2 + 1) 0 = f.entries.get ⟨n * 3 / 2 + 1, hb⟩ :=
    List.getD_eq_get f.entries 0 hb
  have hb0lt : f.entries.get ⟨n * 3 / 2, h0⟩ < 256 := hw _ (f.entries.get_mem _ _)
  have hb1lt : f.entries.get ⟨n * 3 / 2 + 1, hb⟩ < 256 := hw _ (f.entries.get_mem _ _)
  set b0 := f.entries.get ⟨n * 3 / 2, h0⟩
  set b1 := f.entries.get ⟨n * 3 / 2 + 1, hb⟩
  refine ⟨?_, ?_, ?_, fun _ => rfl⟩
  · intro hn
    have hc : n * 3 % 2 = 0 := by omega
    have key : f.get_entry? n
        = some (((b1 &&& 15) * 256 + (b0 &&& 255)) >>> 0 &&& 4095) := by
      simp only [Fat.get_entry?]
      rw [List.get?_eq_get h0, List.get?_eq_get hb, hc]
      rfl
    rw [key, and_15, and_255, Nat.mod_eq_of_lt hb0lt, Nat.shiftRight_zero, and_4095,
      Nat.mod_eq_of_lt (show b1 % 16 * 256 + b0 < 4096 by omega), hb0, hb1]
    exact congrArg some (by omega)
  · intro hn
    have hc : n * 3 % 2 = 1 := by omega
    have key : f.get_entry? n
        = some (((b1 &&& 255) * 256 + (b0 &&& 240)) >>> 4 &&& 4095) := by
      simp only [Fat.get_entry?]
      rw [List.get?_eq_get h0, List.get?_eq_get hb, hc]
      rfl
    rw [key, and_255, Nat.mod_eq_of_lt hb1lt, and_hi_nibble b0 hb0lt, and_4095, hb0, hb1]
    have hs : (b1 * 256 + b0 / 16 * 16) >>> 4 = (b1 * 256 + b0 / 16 * 16) / 16 := by
      rw [Nat.shiftRight_eq_div_pow]
    rw [hs]
    exact congrArg some (by omega)
  · intro v hv
    have key : f.get_entry? n = some (((b1 &&& (255 >>> (4 - n * 3 % 2 * 4))) * 256
        + (b0 &&& ((255 <<< (n * 3 % 2 * 4)) % 256))) >>> (n * 3 % 2 * 4) &&& 4095) := by
      simp only [Fat.get_entry?]
      rw [List.get?_eq_get h0, List.get?_eq_get hb]
    rw [key] at hv
    injection hv with hv
    rw [← hv]
    exact Nat.and_le_right

/-- C1 witness: the theorem applied to the two-byte buffer `[0x34, 0x12]`
and cluster 0 (even case, value 0x234 = 564 = 0x34 + (0x12 % 16) * 256). -/
theorem fat_get_entry_packing_witness :
    Fat.get_entry? ⟨[0x34, 0x12]⟩ 0
      = some ((Fat.entries ⟨[0x34, 0x12]⟩).getD 0 0
          + (Fat.entries ⟨[0x34, 0x12]⟩).getD 1 0 % 16 * 256) :=
  (fat_get_entry_packing ⟨[0x34, 0x12]⟩ 0 (by decide) (by decide)).1 rfl

/-- A successfully computed chain always contains at least its start. -/
theorem fat_chain_ne_nil (fat : Fat) (fuel start : Nat) (cs : List Nat)
    (h : fat_chain fat fuel start = some cs) : cs ≠ [] := by
  cases fuel with
  | zero => exact absurd h (by simp [fat_chain])
  | succ fuel =>
    simp only [fat_chain] at h
    split at h
    · exact absurd h (by simp)
    · rename_i next hg
      by_cases he : 0x0FF8 ≤ next
      · rw [if_pos he] at h
        injection h with h
        rw [← h]
        simp
      · rw [if_neg he] at h
        rw [Option.map_eq_some'] at h
        obtain ⟨cs', _, hcs⟩ := h
        rw [← hcs]
        simp

/-- One cluster read succeeds and yields that cluster's on-disk bytes
whenever the cluster lies within the image. -/
theorem read_cluster_ok (b : BootSector) (d : DiskState) (c : Nat)
    (h : b.get_cluster_start c + b.get_cluster_size ≤ d.data.length) :
    read_buffer (d.seek (b.get_cluster_start c)) b.get_cluster_size
      = Except.ok (cluster_bytes d.data b c,
          ⟨d.data, b.get_cluster_start c + b.get_cluster_size⟩) := by
  unfold read_buffer read_exact DiskState.seek cluster_bytes
  simp only
  rw [if_pos (by simpa using h)]

/-- The chain-walk loop, run with any accumulator, appends the visited
clusters' bytes in traversal order and leaves the image data unchanged. -/
theorem read_entry_content_loop_spec (b : BootSector) (fat : Fat) :
    ∀ (fuel current : Nat) (cs : List Nat),
      fat_chain fat fuel current = some cs →
      ∀ (acc : List Nat) (d : DiskState),
        (∀ c ∈ cs, b.get_cluster_start c + b.get_cluster_size ≤ d.data.length) →
        ∃ p, read_entry_content_loop b fat fuel current acc d
          = some (Except.ok (acc ++ (cs.map (cluster_bytes d.data b)).flatten,
              ⟨d.data, p⟩)) := by
  intro fuel
  induction fuel with
  | zero => intro current cs h; exact absurd h (by simp [fat_chain])
  | succ fuel ih =>
    intro current cs h acc d hr
    simp only [fat_chain] at h
    split at h
    · exact absurd h (by simp)
    · rename_i next hg
      by_cases he : 0x0FF8 ≤ next
      · rw [if_pos he] at h
        injection h with h
        subst h
        have hcur := hr current (by simp)
        refine ⟨b.get_cluster_start current + b.get_cluster_size, ?_⟩
        simp only [read_entry_content_loop]
        rw [read_cluster_ok b d current hcur, hg]
        simp [he]
      · rw [if_neg he] at h
        rw [Option.map_eq_some'] at h
        obtain ⟨cs', hcs', hcs⟩ := h
        subst hcs
        have hcur := hr current (by simp)
        have hrest : ∀ c ∈ cs',
            b.get_cluster_start c + b.get_cluster_size
              ≤ (DiskState.data ⟨d.data, b.get_cluster_start current + b.get_cluster_size⟩).length :=
          fun c hc => hr c (by simp [hc])
        obtain ⟨p, hp⟩ := ih next cs' hcs' (acc ++ cluster_bytes d.data b current)
          ⟨d.data, b.get_cluster_start current + b.get_cluster_size⟩ hrest
        refine ⟨p, ?_⟩
        simp only [read_entry_content_loop]
        rw [read_cluster_ok b d current hcur, hg]
        simp [he, hp, List.append_assoc]

/-- C2: if the FAT chain from the entry's first cluster reaches an
end-of-chain marker (a decoded value `>= 0x0FF8`) after visiting the
clusters `cs`, and each visited cluster lies within the image, then
`read_entry_content` succeeds, returns exactly the concatenation of the
visited clusters' contents in traversal order, the result's length is
`clusterSize * (number of clusters visited)`, and at least one cluster is
visited (the entry's `file_size` — zero or not — plays no role). -/
theorem read_entry_content_spec (d : DiskState) (entry : DirectoryEntry)
    (fat : Fat) (b : BootSector) (fuel : Nat) (cs : List Nat)
    (hchain : fat_chain fat fuel entry.lower_first_cluster = some cs)
    (hread : ∀ c ∈ cs, b.get_cluster_start c + b.get_cluster_size ≤ d.data.length) :
    (∃ p, read_entry_content d entry fat b fuel
        = some (Except.ok ((cs.map (cluster_bytes d.data b)).flatten, ⟨d.data, p⟩))) ∧
    ((cs.map (cluster_bytes d.data b)).flatten).length
        = b.get_cluster_size * cs.length ∧
    1 ≤ cs.length := by
  refine ⟨?_, ?_, ?_⟩
  · obtain ⟨p, hp⟩ := read_entry_content_loop_spec b fat fuel
      entry.lower_first_cluster cs hchain [] d hread
    exact ⟨p, by simpa [read_entry_content] using hp⟩
  · rw [List.length_flatten, List.map_map]
    have hlen : ∀ c ∈ cs, (List.length ∘ cluster_bytes d.data b) c = b.get_cluster_size := by
      intro c hc
      have h := hread c hc
      simp only [Function.comp_apply, cluster_bytes, List.length_take, List.length_drop]
      omega
    rw [List.map_congr_left hlen, List.map_const', List.sum_const_nat,
      Nat.mul_comm]
  · have := fat_chain_ne_nil fat fuel entry.lower_first_cluster cs hchain
    have := List.length_pos.mpr this
    omega

/-- C2 witness: on a 2-byte image holding one 2-byte cluster, with a FAT
whose entry 2 decodes to the end-of-chain value 0xFF8, the chain from
`entryTiny` (first cluster 2, `file_size = 0`) is `[2]` and the read
returns that single whole cluster. -/
theorem read_entry_content_spec_witness :
    (∃ p, read_entry_content ⟨[0xAB, 0xCD], 0⟩ entryTiny fatOne bsTiny 1
        = some (Except.ok ((([2] : List Nat).map
            (cluster_bytes [0xAB, 0xCD] bsTiny)).flatten, ⟨[0xAB, 0xCD], p⟩))) ∧
    ((([2] : List Nat).map (cluster_bytes [0xAB, 0xCD] bsTiny)).flatten).length
        = bsTiny.get_cluster_size * ([2] : List Nat).length ∧
    1 ≤ ([2] : List Nat).length :=
  read_entry_content_spec ⟨[0xAB, 0xCD], 0⟩ entryTiny fatOne bsTiny 1 [2]
    (by decide) (by decide)

/-- The scan loop returns `none` whenever no entry's name equals the query
(whether it runs off the list end or breaks at a terminator). -/
theorem get_entry_go_none_of_no_match (q : List Nat) :
    ∀ es : List DirectoryEntry, (∀ e ∈ es, q ≠ e.name) →
      Directory.get_entry.go es q = none := by
  intro es
  induction es with
  | nil => intro _; rfl
  | cons e rest ih =>
    intro h
    simp only [Directory.get_entry.go]
    cases hh : e.name.head? with
    | none => rfl
    | some b =>
      by_cases hb : b = 0x00
      · simp [hb]
      · have hq : q ≠ e.name := h e (by simp)
        have hrest := ih (fun x hx => h x (by simp [hx]))
        simp [hb, hq, hrest]

/-- A successfully computed chain starts with its start cluster. -/
theorem fat_chain_head (fat : Fat) (fuel start : Nat) (cs : List Nat)
    (h : fat_chain fat fuel start = some cs) : ∃ tl, cs = start :: tl := by
  cases fuel with
  | zero => exact absurd h (by simp [fat_chain])
  | succ fuel =>
    simp only [fat_chain] at h
    split at h
    · exact absurd h (by simp)
    · rename_i next hg
      by_cases he : 0x0FF8 ≤ next
      · rw [if_pos he] at h
        injection h with h
        exact ⟨[], h.symm⟩
      · rw [if_neg he] at h
        rw [Option.map_eq_some'] at h
        obtain ⟨cs', _, hcs⟩ := h
        exact ⟨cs', hcs.symm⟩

/-- If any step of the chain walk fails to read its cluster — the clusters
before it having been read successfully — the whole walk returns exactly
that read error, discarding the bytes accumulated so far. -/
theorem read_entry_content_loop_error (b : BootSector) (fat : Fat) (c : Nat)
    (e : IoError) :
    ∀ (cs1 : List Nat) (fuel current : Nat) (cs2 acc : List Nat) (d : DiskState),
      fat_chain fat fuel current = some (cs1 ++ c :: cs2) →
      (∀ x ∈ cs1, b.get_cluster_start x + b.get_cluster_size ≤ d.data.length) →
      read_buffer (d.seek (b.get_cluster_start c)) b.get_cluster_size
        = Except.error e →
      read_entry_content_loop b fat fuel current acc d
        = some (Except.error e) := by
  intro cs1
  induction cs1 with
  | nil =>
    intro fuel current cs2 acc d hchain _ hfail
    cases fuel with
    | zero => exact absurd hchain (by simp [fat_chain])
    | succ fuel =>
      obtain ⟨tl, htl⟩ := fat_chain_head fat (fuel + 1) current _ hchain
      rw [List.nil_append] at htl
      injection htl with h1 _
      simp only [read_entry_content_loop]
      rw [← h1, hfail]
  | cons c1 rest ih =>
    intro fuel current cs2 acc d hchain hr hfail
    cases fuel with
    | zero => exact absurd hchain (by simp [fat_chain])
    | succ fuel =>
      simp only [fat_chain, List.cons_append] at hchain
      split at hchain
      · exact absurd hchain (by simp)
      · rename_i next hg
        by_cases he : 0x0FF8 ≤ next
        · rw [if_pos he] at hchain
          injection hchain with h
          have hlen := congrArg List.length h
          simp at hlen
        · rw [if_neg he] at hchain
          rw [Option.map_eq_some'] at hchain
          obtain ⟨cs', hcs', hcons⟩ := hchain
          injection hcons with hcur hcs2
          have hrd : b.get_cluster_start current + b.get_cluster_size
              ≤ d.data.length := by
            rw [hcur]
            exact hr c1 (by simp)
          rw [hcs2] at hcs'
          have hr' : ∀ x ∈ rest, b.get_cluster_start x + b.get_cluster_size
              ≤ (DiskState.data
                  ⟨d.data, b.get_cluster_start current + b.get_cluster_size⟩).length :=
            fun x hx => hr x (by simp [hx])
          have hfail' : read_buffer
              ((⟨d.data, b.get_cluster_start current + b.get_cluster_size⟩ :
                  DiskState).seek (b.get_cluster_start c)) b.get_cluster_size
              = Except.error e := by
            simpa [DiskState.seek] using hfail
          have hrec := ih fuel next cs2 (acc ++ cluster_bytes d.data b current)
            ⟨d.data, b.get_cluster_start current + b.get_cluster_size⟩
            hcs' hr' hfail'
          simp only [read_entry_content_loop]
          rw [read_cluster_ok b d current hrd, hg]
          simp [he, hrec]

/-- C7: a reading stage fails with a truncated-read error exactly when fewer
bytes than requested are available at that stage: `read_buffer` reports the
requested and available counts, the boot-sector, FAT, root-directory, and
cluster-read stages fail precisely when (and with exactly the error that)
their underlying buffer read fails — no retry and no partial result: a read
failure at any cluster of the chain, first or later, aborts the whole walk
with that error and discards the clusters already read — and a name lookup
with no match is the normal `none` outcome, not an error. -/
theorem error_propagation_spec (d : DiskState) (b : BootSector) (n : Nat)
    (entry : DirectoryEntry) (fat : Fat) (fuel : Nat) (e : IoError)
    (dir : Directory) (q : List Nat) :
    (d.data.length < d.pos + n →
      read_buffer d n
        = Except.error (IoError.truncatedRead n (d.data.length - d.pos))) ∧
    (read_boot_sector d = Except.error e
      ↔ read_buffer d bootSectorByteSize = Except.error e) ∧
    (read_fat d b = Except.error e
      ↔ read_buffer (d.seek b.get_fat_start) b.get_fat_size = Except.error e) ∧
    (read_root_directory d b = Except.error e
      ↔ read_buffer (d.seek b.get_root_dir_start) b.get_root_dir_size
          = Except.error e) ∧
    (read_buffer (d.seek (b.get_cluster_start entry.lower_first_cluster))
        b.get_cluster_size = Except.error e →
      read_entry_content d entry fat b (fuel + 1) = some (Except.error e)) ∧
    (∀ cs1 c cs2,
      fat_chain fat fuel entry.lower_first_cluster = some (cs1 ++ c :: cs2) →
      (∀ x ∈ cs1, b.get_cluster_start x + b.get_cluster_size ≤ d.data.length) →
      read_buffer (d.seek (b.get_cluster_start c)) b.get_cluster_size
        = Except.error e →
      read_entry_content d entry fat b fuel = some (Except.error e)) ∧
    ((∀ en ∈ dir.entries, q ≠ en.name) → dir.get_entry q = none) := by
  refine ⟨?_, ?_, ?_, ?_, ?_, ?_, ?_⟩
  · intro h
    unfold read_buffer read_exact
    rw [if_neg (by omega)]
  · unfold read_boot_sector
    cases h : read_buffer d bootSectorByteSize with
    | error e2 => simp
    | ok v => obtain ⟨buf, d'⟩ := v; simp
  · unfold read_fat
    cases h : read_buffer (d.seek b.get_fat_start) b.get_fat_size with
    | error e2 => simp
    | ok v => obtain ⟨buf, d'⟩ := v; simp
  · unfold read_root_directory
    cases h : read_buffer (d.seek b.get_root_dir_start) b.get_root_dir_size with
    | error e2 => simp
    | ok v => obtain ⟨buf, d'⟩ := v; simp
  · intro h
    simp only [read_entry_content, read_entry_content_loop]
    rw [h]
  · intro cs1 c cs2 hchain hr hfail
    unfold read_entry_content
    exact read_entry_content_loop_error b fat c e cs1 fuel
      entry.lower_first_cluster cs2 [] d hchain hr hfail
  · exact get_entry_go_none_of_no_match q dir.entries

/-- C7 witness: on an empty image every stage fails with the truncated-read
error of its own requested size; on a 3-byte image with the two-cluster
chain 2 → 3, the first cluster read succeeds but the second fails, and the
whole walk returns that error alone, discarding the first cluster's bytes;
and looking up a non-matching name yields `none`. -/
theorem error_propagation_spec_witness :
    read_buffer ⟨[], 0⟩ 1 = Except.error (IoError.truncatedRead 1 0) ∧
    read_boot_sector ⟨[], 0⟩ = Except.error (IoError.truncatedRead 61 0) ∧
    read_fat ⟨[], 0⟩ bsSmall = Except.error (IoError.truncatedRead 4608 0) ∧
    read_root_directory ⟨[], 0⟩ bsSmall
      = Except.error (IoError.truncatedRead 7168 0) ∧
    read_entry_content ⟨[], 0⟩ entryTiny fatOne bsSmall 1
      = some (Except.error (IoError.truncatedRead 512 0)) ∧
    read_entry_content ⟨[0xAB, 0xCD, 0xEF], 0⟩ entryTiny fatTwo bsTiny 2
      = some (Except.error (IoError.truncatedRead 2 1)) ∧
    Directory.get_entry
      ⟨[⟨[66, 32, 32, 32, 32, 32, 32, 32, 32, 32, 32], 0, 0, 0, 0, 0, 0, 0, 0, 0, 5, 0⟩]⟩
      [65, 32, 32, 32, 32, 32, 32, 32, 32, 32, 32] = none := by
  refine ⟨?_, ?_, ?_, ?_, ?_, ?_, ?_⟩
  · exact (error_propagation_spec ⟨[], 0⟩ bsSmall 1 entryTiny fatOne 0
      (IoError.truncatedRead 1 0) ⟨[]⟩ []).1 (by decide)
  · exact (error_propagation_spec ⟨[], 0⟩ bsSmall 1 entryTiny fatOne 0
      (IoError.truncatedRead 61 0) ⟨[]⟩ []).2.1.mpr rfl
  · exact (error_propagation_spec ⟨[], 0⟩ bsSmall 1 entryTiny fatOne 0
      (IoError.truncatedRead 4608 0) ⟨[]⟩ []).2.2.1.mpr rfl
  · exact (error_propagation_spec ⟨[], 0⟩ bsSmall 1 entryTiny fatOne 0
      (IoError.truncatedRead 7168 0) ⟨[]⟩ []).2.2.2.1.mpr rfl
  · exact (error_propagation_spec ⟨[], 0⟩ bsSmall 1 entryTiny fatOne 0
      (IoError.truncatedRead 512 0) ⟨[]⟩ []).2.2.2.2.1 rfl
  · exact (error_propagation_spec ⟨[0xAB, 0xCD, 0xEF], 0⟩ bsTiny 1 entryTiny
      fatTwo 2 (IoError.truncatedRead 2 1) ⟨[]⟩ []).2.2.2.2.2.1
      [2] 3 [] (by decide) (by decide) rfl
  · exact (error_propagation_spec ⟨[], 0⟩ bsSmall 1 entryTiny fatOne 0
      (IoError.truncatedRead 1 0)
      ⟨[⟨[66, 32, 32, 32, 32, 32, 32, 32, 32, 32, 32], 0, 0, 0, 0, 0, 0, 0, 0, 0, 5, 0⟩]⟩
      [65, 32, 32, 32, 32, 32, 32, 32, 32, 32, 32]).2.2.2.2.2.2 (by decide)

end Fat12
